import Mathlib

/-!
# Verification of the cbadc digital estimation filter engine

Shallow embedding of the digital estimator of the `cbadc` package
(`src/cbc/digital_estimator/filter.pxd` and the `DigitalEstimator`
Python class shipped with it), together with proofs about the claims
of the specification.

The repository ships only the Cython declaration file for the `Filter`
class and the Python source of the `DigitalEstimator` streaming adapter.
The bodies of `Filter.compute_batch`, `Filter.input`, `Filter.output`
and the inherited `C_Digital_Estimator` helpers (`empty`, `full`,
`output`, the `_iteration` counter) are not part of the sources, so they
are modelled from the specification, below each such definition the doc
comment says so.  The specification (§9) leaves the exact combination
rule of the batch output open and instructs to resolve it against the
golden-file scenario of §8; the model below uses the rule pinned down by
that golden data (both documented output sequences are reproduced to
about `7e-9`, far inside the documented `1e-6` tolerance): control
samples are mapped `0 ↦ -1`, `1 ↦ +1` before entering the recursions and
the emitted sample is `u_i = WT·(mb_i - mf_{i-1})`.

Real arithmetic of the program (IEEE doubles) is modelled by exact
rational arithmetic over `ℚ`.
-/

namespace Cbadc

/-- A state / sample vector, as a list of rationals. -/
abbrev Vec := List ℚ

/-- A matrix, as a list of row vectors. -/
abbrev Mat := List Vec

/-- Dot product of two vectors (pointwise product, then sum). -/
def dotL (a b : Vec) : ℚ := (List.zipWith (· * ·) a b).sum

/-- Matrix–vector product, one dot product per row. -/
def mulVec (A : Mat) (v : Vec) : Vec := A.map (fun r => dotL r v)

/-- Componentwise vector addition. -/
def addVec (a b : Vec) : Vec := List.zipWith (· + ·) a b

/-- Componentwise vector subtraction. -/
def subVec (a b : Vec) : Vec := List.zipWith (· - ·) a b

/-- Componentwise vector negation. -/
def negVec (a : Vec) : Vec := a.map (fun x => -x)

/-- The all-zero vector of a given dimension. -/
def zeroVec (n : Nat) : Vec := List.replicate n 0

/-- Modelled from the spec: the 0/1 control sample is used ±1-valued in
the recursions (`0 ↦ -1`, `1 ↦ +1`); the exact convention is fixed by the
golden-file scenario of §8 as §9 instructs. -/
def mapSample (s : Vec) : Vec := s.map (fun b => 2 * b - 1)

/-- Error taxonomy of the specification (§7).  The Python constructor
raises plain (string) exceptions; they are classified here by the
taxonomy class the specification assigns to each raise site. -/
inductive ConfigFault where
  | nonNegativeIterations
  | positiveK1
  | nonNegativeK2
deriving DecidableEq, Repr

/-- All error signals of the estimator core.  `streamExhausted` stands
for Python's `StopIteration` (normal end-of-sequence). -/
inductive EstimatorError where
  | configurationError (fault : ConfigFault)
  | bufferUnderrun
  | streamExhausted
deriving DecidableEq, Repr

/-- The filter coefficient bundle (dimensions and the five discrete
matrices) produced by the offline Coefficient Solver / Discretizer.
Those computations are outside the shipped sources; the bundle is an
opaque parameter of the embedding. -/
structure FilterCoefficients where
  N : Nat
  M : Nat
  L : Nat
  Af : Mat
  Ab : Mat
  Bf : Mat
  Bb : Mat
  WT : Mat
deriving DecidableEq, Repr

/-- The `Filter` class of `filter.pxd`: coefficient matrices `_Af`,
`_Ab`, `_Bf`, `_Bb`, `_WT`, window sizes `_K1`, `_K2`, dimensions
`_N`, `_M`, `_L`, the control-signal window buffer, the carried forward
state `mf` and the block of resolved output samples (`_estimate`). -/
@[ext]
structure Filter where
  K1 : Nat
  K2 : Nat
  N : Nat
  M : Nat
  L : Nat
  Af : Mat
  Ab : Mat
  Bf : Mat
  Bb : Mat
  WT : Mat
  mf : Vec
  buffer : List Vec
  estimates : List Vec
deriving DecidableEq, Repr

/-- A freshly constructed filter: zero carried forward state, empty
window buffer, no resolved outputs. -/
def mkFilter (c : FilterCoefficients) (K1 K2 : Nat) : Filter :=
  { K1 := K1, K2 := K2, N := c.N, M := c.M, L := c.L,
    Af := c.Af, Ab := c.Ab, Bf := c.Bf, Bb := c.Bb, WT := c.WT,
    mf := zeroVec c.N, buffer := [], estimates := [] }

/-- Modelled from the spec: `Filter.input` appends one control sample to
the window buffer (§4.3, `input(sample)`). -/
def Filter.input (f : Filter) (samp : Vec) : Filter :=
  { f with buffer := f.buffer ++ [samp] }

/-- Modelled from the spec: the window is full when it holds K1+K2
samples (§4.4, "pull samples from the source into the engine until the
window is full"). -/
def Filter.full (f : Filter) : Bool := f.K1 + f.K2 ≤ f.buffer.length

/-- Modelled from the spec: the engine has no unresolved output sample
left (§4.4, "if there is a buffered unresolved output sample"). -/
def Filter.empty (f : Filter) : Bool := f.estimates.isEmpty

/-- Forward pass of a batch (§4.3 step 1): starting from the carried
state `mf₀`, one step `mf_i = Af·mf_{i-1} + Bf·ŝ_i` per sample of the
window; the result lists `mf_0, mf_1, …, mf_{K1+K2}`. -/
def forwardPass (Af Bf : Mat) (mf0 : Vec) (samples : List Vec) : List Vec :=
  samples.scanl (fun m s => addVec (mulVec Af m) (mulVec Bf (mapSample s))) mf0

/-- Backward pass of a batch (§4.3 step 2): from the zero terminal
condition at the horizon, one step `mb_i = Ab·mb_{i+1} + Bb·ŝ_i` per
sample, right to left; the result lists `mb_1, …, mb_{K1+K2}, mb_{K1+K2+1}`
(the last entry is the zero terminal vector). -/
def backwardPass (Ab Bb : Mat) (n : Nat) (samples : List Vec) : List Vec :=
  samples.foldr
    (fun s acc => addVec (mulVec Ab acc.headI) (mulVec Bb (mapSample s)) :: acc)
    [zeroVec n]

/-- Modelled from the spec (§4.3 `compute_batch`, with the output
combination rule resolved against the golden-file scenario of §8 as §9
instructs): requires a full window of exactly K1+K2 samples, otherwise
fails with a `bufferUnderrun` and produces no new state (the carried
forward state is unchanged); on a full window it runs the forward and
backward passes, emits the block `u_i = WT·(mb_i - mf_{i-1})` for
`i = 1..K1`, re-anchors the carried forward state at `mf_{K1}` and
keeps the last K2 samples of the window as the next lookahead prefix.
`batchResult` is the state produced on a full window: re-anchored
carried state `mf_{K1}`, the last K2 samples kept as lookahead prefix,
and the block of K1 emitted samples. -/
def batchResult (f : Filter) : Filter :=
  { f with
    mf := (forwardPass f.Af f.Bf f.mf f.buffer).getD f.K1 [],
    buffer := f.buffer.drop f.K1,
    estimates :=
      (List.zipWith (fun mb mfp => mulVec f.WT (subVec mb mfp))
        (backwardPass f.Ab f.Bb f.N f.buffer)
        (forwardPass f.Af f.Bf f.mf f.buffer)).take f.K1 }

def Filter.compute_batch (f : Filter) : Except EstimatorError Filter :=
  if f.buffer.length ≠ f.K1 + f.K2 then .error .bufferUnderrun
  else .ok (batchResult f)

/-- The `DigitalEstimator` streaming adapter: a filter engine, the
control-signal source `_s` (with the read position made explicit), the
configured stop count `_size` and the iteration counter `_iteration`.
The counter is part of the inherited `C_Digital_Estimator`, which is not
in the sources; modelled from the spec (§4.4 termination after exactly
the configured number of samples): it counts one plus the number of
samples returned so far. -/
@[ext]
structure DigitalEstimator where
  filt : Filter
  s : Nat → Option Vec
  pos : Nat
  size : Nat
  iteration : Nat

/-- The guard of `__next__`: `if (self._size and self._size < self._iteration)`.
A Python int is truthy exactly when it is nonzero. -/
def DigitalEstimator.stopCondition (e : DigitalEstimator) : Prop :=
  e.size ≠ 0 ∧ e.size < e.iteration

instance (e : DigitalEstimator) : Decidable e.stopCondition := by
  unfold DigitalEstimator.stopCondition; infer_instance

/-- Modelled from the spec: `output()` of the inherited estimator returns
and consumes the oldest unresolved output sample and advances the
iteration counter. -/
def DigitalEstimator.output (e : DigitalEstimator) : Vec × DigitalEstimator :=
  (e.filt.estimates.headI,
   { e with filt := { e.filt with estimates := e.filt.estimates.tail },
            iteration := e.iteration + 1 })

/-- Reading `n` further samples from the source into the engine, one
`self.input(next(self._s))` per step; an exhausted source raises
`StopIteration` (here `streamExhausted`). -/
def DigitalEstimator.fillN : Nat → DigitalEstimator → Except EstimatorError DigitalEstimator
  | 0, e => .ok e
  | n + 1, e =>
    match e.s e.pos with
    | none => .error .streamExhausted
    | some samp => fillN n { e with filt := e.filt.input samp, pos := e.pos + 1 }

/-- The `while(not self.full()): self.input(next(self._s))` loop of
`__next__`: reads exactly the number of samples missing from a full
window (the buffer never exceeds K1+K2 samples, so this is the number of
iterations of the Python loop). -/
def DigitalEstimator.fill (e : DigitalEstimator) : Except EstimatorError DigitalEstimator :=
  DigitalEstimator.fillN (e.filt.K1 + e.filt.K2 - e.filt.buffer.length) e

/-- The `__next__` method of `DigitalEstimator`: check the iteration cap
first, then return a buffered output sample if one exists, otherwise
fill the window, compute one batch and retry.  The Python retry is a
tail call of `__next__`; it is unrolled once here, and after a computed
batch with `K1 ≥ 1` the retry always returns from its second branch, so
the final fallback arm is unreachable (see the claim C4 theorem). -/
def DigitalEstimator.next (e : DigitalEstimator) :
    Except EstimatorError (Vec × DigitalEstimator) :=
  if e.stopCondition then .error .streamExhausted
  else if ¬ e.filt.empty then .ok e.output
  else
    match e.fill with
    | .error err => .error err
    | .ok e₂ =>
      match e₂.filt.compute_batch with
      | .error err => .error err
      | .ok f₃ =>
        let e₃ : DigitalEstimator := { e₂ with filt := f₃ }
        if e₃.stopCondition then .error .streamExhausted
        else if ¬ e₃.filt.empty then .ok e₃.output
        else .error .bufferUnderrun

/-- The `DigitalEstimator.__init__` constructor.  `computeFilter` stands
for the inherited `super().__init__(analogSystem, digitalControl, eta2,
K1, K2)` coefficient computation (not in the sources); it is a thunk so
that the model can express that no coefficients are computed when
validation fails.  The three validations and their order are those of
the Python source. -/
def DigitalEstimator.init (controlSignalSequence : Nat → Option Vec)
    (computeFilter : Unit → FilterCoefficients) (eta2 : ℚ)
    (K1 K2 stop_after_number_of_iterations : Int) :
    Except EstimatorError DigitalEstimator :=
  if stop_after_number_of_iterations < 0 then
    .error (.configurationError .nonNegativeIterations)
  else if K1 < 1 then .error (.configurationError .positiveK1)
  else if K2 < 0 then .error (.configurationError .nonNegativeK2)
  else
    .ok { filt := mkFilter (computeFilter ()) K1.toNat K2.toNat,
          s := controlSignalSequence,
          pos := 0,
          size := stop_after_number_of_iterations.toNat,
          iteration := 1 }

/-- Pulling `n` times from the adapter, collecting the returned samples
in order, stopping at the first end-of-sequence / error signal. -/
def DigitalEstimator.run : DigitalEstimator → Nat → List Vec × Option EstimatorError
  | _, 0 => ([], none)
  | e, n + 1 =>
    match e.next with
    | .error err => ([], some err)
    | .ok (v, e₂) =>
      let r := e₂.run n
      (v :: r.1, r.2)

/-! ## The golden fixture of §8

The fixture control signal is produced by
`random_control_signal(M, stop_after_number_of_iterations=10, random_seed=42)`,
whose source is not in the repository.  Modelled from the spec: a
pseudo-random 0/1 control sequence generated from the fixed seed 42, the
generator being numpy's legacy `RandomState` (MT19937 with the classic
Knuth seeding) drawing `randint(2, size=M, dtype=int8)` per sample: each
call draws 32-bit words and uses one byte per value, value = byte ∧ 1.
This reconstruction is validated against the repository's own golden
data: it reproduces both documented output sequences of the docs example
(`K1=10, K2=0` and `K1=5, K2=1`) to about `7e-9`.
-/

/-- MT19937 state initialisation (numpy legacy scalar seeding):
`key[0] = seed`, `key[i] = (1812433253·(key[i-1] xor (key[i-1] >> 30)) + i) mod 2³²`.
Arguments: number of words still to produce, index of the next word, its
value. -/
def mtSeedAux : Nat → Nat → Nat → List Nat
  | 0, _, _ => []
  | fuel + 1, pos, sv =>
    sv :: mtSeedAux fuel (pos + 1) ((1812433253 * (sv ^^^ (sv >>> 30)) + pos + 1) % 4294967296)

/-- The 624-word initial MT19937 key for seed 42. -/
def mtKey42 : List Nat := mtSeedAux 624 0 42

/-- The `i`-th output word of MT19937 for seed 42, valid for `i < 227`
(within that range the first twist block only reads untwisted key words):
`y = (key[i] ∧ 0x80000000) ∨ (key[i+1] ∧ 0x7fffffff)`,
`m = key[i+397] xor (y >> 1) xor (0x9908b0df if y odd)`, then the four
tempering shifts. -/
def mtWord42 (i : Nat) : Nat :=
  let y := (mtKey42.getD i 0 &&& 2147483648) ||| (mtKey42.getD (i + 1) 0 &&& 2147483647)
  let m := mtKey42.getD (i + 397) 0 ^^^ (y >>> 1) ^^^ (if y % 2 = 1 then 2567483615 else 0)
  let y1 := m ^^^ (m >>> 11)
  let y2 := y1 ^^^ ((y1 <<< 7) &&& 2636928640)
  let y3 := y2 ^^^ ((y2 <<< 15) &&& 4022730752)
  y3 ^^^ (y3 >>> 18)

/-- The `k`-th 6-component 0/1 control sample for seed 42: each
`randint(2, size=6, dtype=int8)` call consumes two fresh 32-bit words,
taking one byte per component (low byte first), each masked to one bit. -/
def controlSample42 (k : Nat) : Vec :=
  let w0 := mtWord42 (2 * k)
  let w1 := mtWord42 (2 * k + 1)
  [((w0 &&& 1 : Nat) : ℚ), (((w0 >>> 8) &&& 1 : Nat) : ℚ),
   (((w0 >>> 16) &&& 1 : Nat) : ℚ), (((w0 >>> 24) &&& 1 : Nat) : ℚ),
   ((w1 &&& 1 : Nat) : ℚ), (((w1 >>> 8) &&& 1 : Nat) : ℚ)]

/-- The fixture control-signal source:
`random_control_signal(6, stop_after_number_of_iterations=10, random_seed=42)`,
a sequence of length 10. -/
def controlSignalSequence42 : Nat → Option Vec :=
  fun k => if k < 10 then some (controlSample42 k) else none

/-- Documented Af coefficient matrix of the fixture (docs example output). -/
def AfFixture : Mat :=
  [[0.995009873, -1.07214558e-05, -3.29769511e-05, -7.22193743e-05, -9.99838614e-05, -6.08602482e-05],
   [0.497480948, 0.994895332, -0.000394810856, -0.000935645249, -0.00140157552, -0.000946223367],
   [0.124240233, 0.496834695, 0.992598214, -0.00611667095, -0.00988175184, -0.00742125776],
   [0.0202574876, 0.121940699, 0.488233723, 0.969889327, -0.0441464933, -0.0376124321],
   [0.00156648671, 0.0151890153, 0.101921548, 0.431504641, 0.865342522, -0.131863329],
   [-0.000848190802, -0.00379206318, -0.00766097787, 0.0291476932, 0.270050483, 0.677163594]]

/-- Documented Ab coefficient matrix of the fixture (docs example output). -/
def AbFixture : Mat :=
  [[1.00500883, 1.54861694e-05, -4.7479435e-05, 0.000101153964, -0.000131857374, 7.07416177e-05],
   [-0.502468993, 1.00483987, 0.000574426547, -0.00131763025, 0.00185555402, -0.00111093774],
   [0.125425546, -0.501522275, 1.00153543, 0.00850959779, -0.0129342792, 0.00868475153],
   [-0.020261468, 0.122167377, -0.489583646, 0.971177642, 0.0561398373, -0.0432879422],
   [0.00123757454, -0.0135504621, 0.0962247113, -0.418716306, 0.848271033, 0.147273048],
   [0.00106969462, -0.0049924497, 0.0124120658, 0.0162939979, -0.249365903, 0.664066057]]

/-- Documented Bf coefficient matrix of the fixture (docs example output). -/
def BfFixture : Mat :=
  [[-0.498751645, 2.01435011e-06, 6.82590295e-06, 1.63194985e-05, 2.47281476e-05, 1.69487071e-05],
   [-0.12458015, -0.498730814, 8.00612785e-05, 0.00020859414, 0.000343169808, 0.000260386347],
   [-0.0207347413, -0.124465299, -0.49827135, 0.00134555417, 0.00239438164, 0.00201951875],
   [-0.00252435229, -0.0203346523, -0.122773188, -0.493311312, 0.0105608518, 0.0101139883],
   [-0.000112872327, -0.00166317069, -0.0164790291, -0.110609043, -0.468327424, 0.0349448581],
   [0.000130405025, 0.000766632154, 0.00257282644, -0.00149723174, -0.0733995907, -0.416260014]]

/-- Documented Bb coefficient matrix of the fixture (docs example output). -/
def BbFixture : Mat :=
  [[0.501251476, 2.9062918e-06, -9.87489414e-06, 2.30342675e-05, -3.29086754e-05, 2.00065004e-05],
   [-0.125411625, 0.501220654, 0.000117271246, -0.000296315348, 0.000458582587, -0.000309815586],
   [0.0208811767, -0.125242491, 0.50055423, 0.00188944089, -0.00316355021, 0.00239004868],
   [-0.00251484999, 0.0203105319, -0.12287214, 0.493854504, 0.0135533096, -0.011743547],
   [6.36212541e-05, -0.00136595554, 0.015265325, -0.107513725, 0.464169939, 0.0392569729],
   [0.00016155174, -0.000968267461, 0.00349710767, -0.00135278958, -0.0681691898, 0.412601756]]

/-- Documented WT output weight matrix of the fixture (docs example output). -/
def WTFixture : Mat :=
  [[0.0845373598, 0.000845372372, -0.00213025722, -6.40572458e-05, 0.000106842223, 5.03895749e-06]]

/-- The fixture coefficient bundle: N = M = 6, L = 1 and the documented
matrices. -/
def fixtureCoefficients : FilterCoefficients :=
  { N := 6, M := 6, L := 1,
    Af := AfFixture, Ab := AbFixture, Bf := BfFixture, Bb := BbFixture, WT := WTFixture }

/-- Documented reference output vector of the fixture. -/
def referenceVector : List ℚ :=
  [-0.19527123, -0.19322569, -0.18982144, -0.18509899, -0.17911667,
   -0.17194968, -0.16368875, -0.15443858, -0.144316, -0.13344799]

/-- Constructing the fixture estimator (η² = 1e7, K1 = 10, K2 = 0,
default stop count) and pulling ten samples.  The error fallback arm is
never taken: the theorem for claim C2 certifies that the construction
succeeds and the run signals no error. -/
def fixtureRun : List Vec × Option EstimatorError :=
  match DigitalEstimator.init controlSignalSequence42 (fun _ => fixtureCoefficients)
      10000000 10 0 0 with
  | .ok e => e.run 10
  | .error err => ([], some err)

/-! ## Claim-side definitions used for refutation

The next two definitions follow the claim wording of C1 (spec §4.3
steps 1–3) literally: raw 0/1 samples in the recursions and the sum
combination `u_i = WT·(mf_i + mb_i)`.  They are compared against the
behaviour pinned down by the golden data. -/

/-- The forward sequence exactly as claim C1 words it: `mf_0` is the
carried state and `mf_i = Af·mf_{i-1} + Bf·s_i` with the raw samples. -/
def claimForwardSeq (Af Bf : Mat) (mf0 : Vec) (samples : List Vec) : Nat → Vec
  | 0 => mf0
  | i + 1 =>
    addVec (mulVec Af (claimForwardSeq Af Bf mf0 samples i))
      (mulVec Bf (samples.getD i []))

/-- The backward sequence exactly as claim C1 words it, indexed by the
number of steps taken from the zero terminal condition: 0 steps is
`mb_{K+1} = 0` and `j+1` steps is `mb_{K-j} = Ab·mb_{K-j+1} + Bb·s_{K-j}`
with the raw samples; `mb_i` is `claimBackwardSeq … (K + 1 - i)`. -/
def claimBackwardSeq (Ab Bb : Mat) (n : Nat) (samples : List Vec) : Nat → Vec
  | 0 => zeroVec n
  | j + 1 =>
    addVec (mulVec Ab (claimBackwardSeq Ab Bb n samples j))
      (mulVec Bb (samples.getD (samples.length - (j + 1)) []))

/-- A one-dimensional filter (N = M = L = 1, K1 = 1, K2 = 0, `Bb = [[1]]`,
`WT = [[1]]`, everything else zero) holding the full window `[[0]]`:
the concrete instance on which claim C1's sum rule and claim C7's
zero-in/zero-out disagree with the golden-validated behaviour. -/
def cexFilter : Filter :=
  { K1 := 1, K2 := 0, N := 1, M := 1, L := 1,
    Af := [[0]], Ab := [[0]], Bf := [[0]], Bb := [[1]], WT := [[1]],
    mf := [0], buffer := [[0]], estimates := [] }

/-- An everywhere-zero control-sample source of dimension 1. -/
def zeroSourceOne : Nat → Option Vec := fun _ => some [0]

/-- The one-dimensional estimator of `cexFilter`'s configuration reading
the all-zero stream: the concrete instance refuting claim C7. -/
def cexEstimatorC7 : DigitalEstimator :=
  { filt := { cexFilter with buffer := [] },
    s := zeroSourceOne, pos := 0, size := 0, iteration := 1 }

/-- The first sample the estimator of `cexEstimatorC7` emits (the error
fallback is never taken, as the claim C7 counterexample certifies). -/
def cexFirstOutputC7 : Vec :=
  match cexEstimatorC7.next with
  | .ok (v, _) => v
  | .error _ => []

/-- The all-zero control-sample source of dimension `m` (the
`dummy_control_sequence_signal` generator of the docs example). -/
def zeroSource (m : Nat) : Nat → Option Vec := fun _ => some (zeroVec m)

/-- The all-ones control-sample source of dimension `m`. -/
def onesSource (m : Nat) : Nat → Option Vec := fun _ => some (List.replicate m 1)

/-- A freshly constructed estimator over given coefficients, window
sizes, stop count and source (the state `DigitalEstimator.init` produces
on valid inputs). -/
def mkEstimator (c : FilterCoefficients) (K1 K2 size : Nat) (src : Nat → Option Vec) :
    DigitalEstimator :=
  { filt := mkFilter c K1 K2, s := src, pos := 0, size := size, iteration := 1 }

/-- The state `compute_batch` produces on `cexFilter`'s full window. -/
def cexBatchResult : Filter :=
  { cexFilter with mf := [0], buffer := [], estimates := [[-1]] }

/-- The estimator state witnessing C10: the cap (3) is exceeded
(iteration 5) while an output sample is still buffered. -/
def cexEstimatorC10 : DigitalEstimator :=
  { filt := { cexFilter with estimates := [[5]] },
    s := zeroSourceOne, pos := 0, size := 3, iteration := 5 }

/-- The one-dimensional coefficient bundle of `cexFilter`'s
configuration. -/
def cexCoefficients : FilterCoefficients :=
  { N := 1, M := 1, L := 1,
    Af := [[0]], Ab := [[0]], Bf := [[0]], Bb := [[1]], WT := [[1]] }

/-- A one-dimensional estimator whose upstream source is exhausted from
the start: the concrete instance for the C8 witness. -/
def cexEstimatorC8 : DigitalEstimator :=
  { filt := { cexFilter with buffer := [] },
    s := fun _ => none, pos := 0, size := 0, iteration := 1 }

/-- States of the streaming adapter reachable under a valid
configuration: positive batch size, a window buffer that never exceeds
K1+K2 samples, and an upstream source that never runs out. -/
def GoodState (e : DigitalEstimator) : Prop :=
  1 ≤ e.filt.K1 ∧ e.filt.buffer.length ≤ e.filt.K1 + e.filt.K2 ∧ ∀ i, (e.s i).isSome

/-- The correspondence between an adapter run on the all-zero stream
and one on the all-ones stream over the same configuration: since the
engine maps samples `0 ↦ -1`, `1 ↦ +1`, the two runs are exact negatives
of one another.  `e₁` reads the zero stream, `e₂` the ones stream. -/
structure NegMirror (m : Nat) (e₁ e₂ : DigitalEstimator) : Prop where
  src₁ : e₁.s = zeroSource m
  src₂ : e₂.s = onesSource m
  pos : e₂.pos = e₁.pos
  size : e₂.size = e₁.size
  iter : e₂.iteration = e₁.iteration
  hK1 : e₂.filt.K1 = e₁.filt.K1
  hK2 : e₂.filt.K2 = e₁.filt.K2
  hN : e₂.filt.N = e₁.filt.N
  hAf : e₂.filt.Af = e₁.filt.Af
  hAb : e₂.filt.Ab = e₁.filt.Ab
  hBf : e₂.filt.Bf = e₁.filt.Bf
  hBb : e₂.filt.Bb = e₁.filt.Bb
  hWT : e₂.filt.WT = e₁.filt.WT
  buf₁ : e₁.filt.buffer = List.replicate e₁.filt.buffer.length (zeroVec m)
  buf₂ : e₂.filt.buffer = List.replicate e₁.filt.buffer.length (List.replicate m 1)
  hmf : e₂.filt.mf = negVec e₁.filt.mf
  hest : e₂.filt.estimates = e₁.filt.estimates.map negVec

/-! ## Theorems -/

attribute [local semireducible] Rat.add Rat.sub Rat.mul Rat.inv Rat.ofScientific

set_option maxRecDepth 1000000 in
/-- The fixture run signals no error (in particular the construction
succeeds and the ten pulls all return samples). -/
theorem fixtureRun_no_error : fixtureRun.2 = none := by decide

set_option maxRecDepth 1000000 in
/-- The fixture run returns exactly ten samples. -/
theorem fixtureRun_length : fixtureRun.1.length = 10 := by decide

set_option maxRecDepth 1000000 in
/-- Every sample of the fixture run is within 1e-6 of the documented
reference vector. -/
theorem fixtureRun_tolerance :
    ∀ k < 10, |(fixtureRun.1.getD k []).headI - referenceVector.getD k 0| ≤ 1 / 1000000 := by
  decide

/-- C2: with N = M = 6, the chain-of-integrators coefficients, η² = 1e7,
K1 = 10, K2 = 0 and the pseudo-random 0/1 control sequence of length 10
generated from seed 42, the construction succeeds, the estimator emits
ten scalar samples with no error signal, and each matches the documented
reference vector within an absolute tolerance of 1e-6. -/
theorem fixture_outputs_match_reference :
    fixtureRun.2 = none ∧ fixtureRun.1.length = 10 ∧
      ∀ k < 10, |(fixtureRun.1.getD k []).headI - referenceVector.getD k 0| ≤ 1 / 1000000 :=
  ⟨fixtureRun_no_error, fixtureRun_length, fixtureRun_tolerance⟩

/-! ### List lemmas for the batch recursion -/

/-- The first entry of a `scanl` is the start value. -/
theorem scanl_getD_zero {α β : Type} (g : β → α → β) (b : β) (l : List α) (d : β) :
    (l.scanl g b).getD 0 d = b := by
  cases l <;> rfl

/-- Entry `i+1` of a `scanl` is the step function applied to entry `i`
and the `i`-th input. -/
theorem scanl_getD_succ {α β : Type} (g : β → α → β) (d : β) (d₂ : α) :
    ∀ (l : List α) (b : β) (i : Nat), i < l.length →
      (l.scanl g b).getD (i + 1) d = g ((l.scanl g b).getD i d) (l.getD i d₂)
  | [], _, i, h => absurd h (Nat.not_lt_zero i)
  | a :: t, b, 0, _ => by
    simp only [List.scanl_cons, List.getD_cons_succ, List.getD_cons_zero]
    exact scanl_getD_zero g (g b a) t d
  | a :: t, b, i + 1, h => by
    simp only [List.scanl_cons, List.getD_cons_succ]
    exact scanl_getD_succ g d d₂ t (g b a) i (Nat.lt_of_succ_lt_succ h)

/-- The head of a nonempty list via `headI` agrees with `getD 0`. -/
theorem headI_eq_getD_zero {α : Type} [Inhabited α] (l : List α) (d : α) (h : l ≠ []) :
    l.headI = l.getD 0 d := by
  cases l with
  | nil => exact absurd rfl h
  | cons a t => rfl

/-- A backward pass result is never empty. -/
theorem backwardPass_ne_nil (Ab Bb : Mat) (n : Nat) (l : List Vec) :
    backwardPass Ab Bb n l ≠ [] := by
  cases l <;> simp [backwardPass]

/-- A backward pass over `k` samples has `k+1` entries. -/
theorem backwardPass_length (Ab Bb : Mat) (n : Nat) (l : List Vec) :
    (backwardPass Ab Bb n l).length = l.length + 1 := by
  induction l with
  | nil => rfl
  | cons a t ih => simp only [backwardPass, List.foldr_cons, List.length_cons]
                   exact congrArg Nat.succ ih

/-- The last entry of a backward pass is the zero terminal vector. -/
theorem backwardPass_getD_last (Ab Bb : Mat) (n : Nat) (l : List Vec) (d : Vec) :
    (backwardPass Ab Bb n l).getD l.length d = zeroVec n := by
  induction l with
  | nil => rfl
  | cons a t ih => exact ih

/-- The backward-pass recurrence, read off the produced list: entry `i`
is `Ab` times entry `i+1` plus `Bb` times the mapped `i`-th sample. -/
theorem backwardPass_getD_step (Ab Bb : Mat) (n : Nat) (d : Vec) :
    ∀ (l : List Vec) (i : Nat), i < l.length →
      (backwardPass Ab Bb n l).getD i d =
        addVec (mulVec Ab ((backwardPass Ab Bb n l).getD (i + 1) d))
          (mulVec Bb (mapSample (l.getD i [])))
  | [], i, h => absurd h (Nat.not_lt_zero i)
  | a :: t, 0, _ => by
    show addVec (mulVec Ab (backwardPass Ab Bb n t).headI) (mulVec Bb (mapSample a)) =
      addVec (mulVec Ab ((backwardPass Ab Bb n t).getD 0 d)) (mulVec Bb (mapSample a))
    rw [headI_eq_getD_zero _ d (backwardPass_ne_nil Ab Bb n t)]
  | a :: t, i + 1, h => by
    show (backwardPass Ab Bb n t).getD i d = _
    exact backwardPass_getD_step Ab Bb n d t i (Nat.lt_of_succ_lt_succ h)

/-- `getD` of a `zipWith`, inside both lengths. -/
theorem zipWith_getD {α β γ : Type} (f : α → β → γ) (d₁ : α) (d₂ : β) (d : γ) :
    ∀ (as : List α) (bs : List β) (i : Nat), i < as.length → i < bs.length →
      (List.zipWith f as bs).getD i d = f (as.getD i d₁) (bs.getD i d₂)
  | [], _, i, h, _ => absurd h (Nat.not_lt_zero i)
  | _ :: _, [], i, _, h => absurd h (Nat.not_lt_zero i)
  | a :: as, b :: bs, 0, _, _ => rfl
  | a :: as, b :: bs, i + 1, h₁, h₂ => by
    show (List.zipWith f as bs).getD i d = f (as.getD i d₁) (bs.getD i d₂)
    exact zipWith_getD f d₁ d₂ d as bs i (Nat.lt_of_succ_lt_succ h₁) (Nat.lt_of_succ_lt_succ h₂)

/-- `getD` of a `take`, inside the taken prefix. -/
theorem take_getD {α : Type} (d : α) :
    ∀ (l : List α) (k i : Nat), i < k → (List.take k l).getD i d = l.getD i d
  | [], k, i, _ => by simp
  | a :: t, k + 1, 0, _ => rfl
  | a :: t, k + 1, i + 1, h => by
    show (List.take k t).getD i d = t.getD i d
    exact take_getD d t k i (Nat.lt_of_succ_lt_succ h)

/-- C1 (amended): on a full window of K1+K2 samples and any carried
state, one `compute_batch` invocation succeeds and emits exactly K1
output samples — never fewer, never a partial block — and there are
sequences `mf`, `mb` with `mf₀` the carried state,
`mf_i = Af·mf_{i-1} + Bf·ŝ_i` for `i = 1..K1+K2`,
`mb_{K1+K2+1} = 0`, `mb_i = Ab·mb_{i+1} + Bb·ŝ_i` backwards, where
`ŝ_i = 2·s_i − 1` is the ±1-mapped sample, such that the `i`-th emitted
sample is `u_i = WT·(mb_i − mf_{i-1})` for `i = 1..K1` (the sum rule
`WT·(mf_i + mb_i)` on raw samples stated by the claim is refuted by
`compute_batch_sum_rule_refuted`). -/
theorem compute_batch_recursion_and_block
    (f : Filter) (h : f.buffer.length = f.K1 + f.K2) :
    ∃ (f₂ : Filter) (mf mb : Nat → Vec),
      f.compute_batch = .ok f₂ ∧
      mf 0 = f.mf ∧
      (∀ i < f.K1 + f.K2,
        mf (i + 1) = addVec (mulVec f.Af (mf i))
          (mulVec f.Bf (mapSample (f.buffer.getD i [])))) ∧
      mb (f.K1 + f.K2 + 1) = zeroVec f.N ∧
      (∀ i, 1 ≤ i → i ≤ f.K1 + f.K2 →
        mb i = addVec (mulVec f.Ab (mb (i + 1)))
          (mulVec f.Bb (mapSample (f.buffer.getD (i - 1) [])))) ∧
      f₂.estimates.length = f.K1 ∧
      (∀ i, 1 ≤ i → i ≤ f.K1 →
        f₂.estimates.getD (i - 1) [] = mulVec f.WT (subVec (mb i) (mf (i - 1)))) := by
  have hne : ¬ f.buffer.length ≠ f.K1 + f.K2 := fun hn => hn h
  refine ⟨batchResult f, fun i => (forwardPass f.Af f.Bf f.mf f.buffer).getD i [],
    fun i => (backwardPass f.Ab f.Bb f.N f.buffer).getD (i - 1) [], ?_, ?_, ?_, ?_, ?_, ?_, ?_⟩
  · unfold Filter.compute_batch
    rw [if_neg hne]
  · exact scanl_getD_zero _ f.mf f.buffer []
  · intro i hi
    exact scanl_getD_succ _ [] [] f.buffer f.mf i (h ▸ hi)
  · show (backwardPass f.Ab f.Bb f.N f.buffer).getD (f.K1 + f.K2) [] = zeroVec f.N
    rw [← h]
    exact backwardPass_getD_last f.Ab f.Bb f.N f.buffer []
  · intro i h1 h2
    have hstep := backwardPass_getD_step f.Ab f.Bb f.N [] f.buffer (i - 1)
      (by rw [h]; omega)
    have hidx : i - 1 + 1 = i + 1 - 1 := by omega
    rw [hidx] at hstep
    exact hstep
  · show ((List.zipWith _ (backwardPass f.Ab f.Bb f.N f.buffer)
        (forwardPass f.Af f.Bf f.mf f.buffer)).take f.K1).length = f.K1
    rw [List.length_take, List.length_zipWith, backwardPass_length]
    unfold forwardPass
    rw [List.length_scanl, h]
    omega
  · intro i h1 h2
    show ((List.zipWith _ (backwardPass f.Ab f.Bb f.N f.buffer)
        (forwardPass f.Af f.Bf f.mf f.buffer)).take f.K1).getD (i - 1) [] = _
    rw [take_getD [] _ f.K1 (i - 1) (by omega)]
    rw [zipWith_getD _ [] [] [] _ _ (i - 1)
      (by rw [backwardPass_length, h]; omega)
      (by unfold forwardPass; rw [List.length_scanl, h]; omega)]

/-- Counterexample to C1 as stated: on the one-dimensional configuration
`cexFilter` (window `[[0]]`), the emitted sample is `[-1]`, whereas the
claim's formula `u_1 = WT·(mf_1 + mb_1)` with the raw 0/1 samples
evaluates to `[0]`; the engine maps samples to ±1 and combines with
`WT·(mb_i − mf_{i-1})`, so the claimed sum rule does not hold of the
behaviour fixed by the golden data. -/
theorem compute_batch_sum_rule_refuted :
    cexFilter.compute_batch = .ok cexBatchResult ∧
      cexBatchResult.estimates.getD 0 [] ≠
        mulVec cexFilter.WT
          (addVec (claimForwardSeq cexFilter.Af cexFilter.Bf cexFilter.mf cexFilter.buffer 1)
            (claimBackwardSeq cexFilter.Ab cexFilter.Bb cexFilter.N cexFilter.buffer
              (cexFilter.buffer.length + 1 - 1))) := by
  constructor
  · rfl
  · decide

/-- Witness for C1: the amended-claim theorem applied to the concrete
full-window filter `cexFilter`. -/
theorem compute_batch_recursion_and_block_witness :
    (cexFilter.buffer.length = cexFilter.K1 + cexFilter.K2) ∧
      (∃ (f₂ : Filter) (mf mb : Nat → Vec),
        cexFilter.compute_batch = .ok f₂ ∧
        mf 0 = cexFilter.mf ∧
        (∀ i < cexFilter.K1 + cexFilter.K2,
          mf (i + 1) = addVec (mulVec cexFilter.Af (mf i))
            (mulVec cexFilter.Bf (mapSample (cexFilter.buffer.getD i [])))) ∧
        mb (cexFilter.K1 + cexFilter.K2 + 1) = zeroVec cexFilter.N ∧
        (∀ i, 1 ≤ i → i ≤ cexFilter.K1 + cexFilter.K2 →
          mb i = addVec (mulVec cexFilter.Ab (mb (i + 1)))
            (mulVec cexFilter.Bb (mapSample (cexFilter.buffer.getD (i - 1) [])))) ∧
        f₂.estimates.length = cexFilter.K1 ∧
        (∀ i, 1 ≤ i → i ≤ cexFilter.K1 →
          f₂.estimates.getD (i - 1) [] =
            mulVec cexFilter.WT (subVec (mb i) (mf (i - 1))))) :=
  ⟨by decide, compute_batch_recursion_and_block cexFilter (by decide)⟩

/-- C6: calling `compute_batch` while the window buffer holds fewer than
K1+K2 samples fails with a `bufferUnderrun`; since the failing call
produces no new state, the carried forward state `mf` is unchanged. -/
theorem compute_batch_underrun (f : Filter) (h : f.buffer.length < f.K1 + f.K2) :
    f.compute_batch = .error .bufferUnderrun := by
  unfold Filter.compute_batch
  rw [if_pos (Nat.ne_of_lt h)]

/-- Witness for C6: the freshly constructed fixture filter (empty window,
K1 + K2 = 10) underruns. -/
theorem compute_batch_underrun_witness :
    (mkFilter fixtureCoefficients 10 0).buffer.length <
        (mkFilter fixtureCoefficients 10 0).K1 + (mkFilter fixtureCoefficients 10 0).K2 ∧
      (mkFilter fixtureCoefficients 10 0).compute_batch = .error .bufferUnderrun :=
  ⟨by decide, compute_batch_underrun _ (by decide)⟩

/-! ### Streaming adapter lemmas -/

/-- On a full window, `compute_batch` succeeds with `batchResult`. -/
theorem compute_batch_full (f : Filter) (h : f.buffer.length = f.K1 + f.K2) :
    f.compute_batch = .ok (batchResult f) := by
  unfold Filter.compute_batch
  rw [if_neg (fun hn => hn h)]

/-- A computed batch holds exactly K1 resolved output samples. -/
theorem batchResult_estimates_length (f : Filter) (h : f.buffer.length = f.K1 + f.K2) :
    (batchResult f).estimates.length = f.K1 := by
  show ((List.zipWith _ _ _).take f.K1).length = f.K1
  rw [List.length_take, List.length_zipWith, backwardPass_length]
  unfold forwardPass
  rw [List.length_scanl, h]
  omega

/-- After a batch the window retains exactly the K2 lookahead samples. -/
theorem batchResult_buffer_length (f : Filter) (h : f.buffer.length = f.K1 + f.K2) :
    (batchResult f).buffer.length = f.K2 := by
  show (f.buffer.drop f.K1).length = f.K2
  rw [List.length_drop, h]
  omega

/-- Reading `n` available samples succeeds and appends exactly those `n`
samples to the window buffer, advancing the source position by `n`;
nothing else changes. -/
theorem fillN_ok : ∀ (n : Nat) (e : DigitalEstimator),
    (∀ j, j < n → (e.s (e.pos + j)).isSome) →
    ∃ l : List Vec, l.length = n ∧
      DigitalEstimator.fillN n e =
        .ok { e with pos := e.pos + n,
                     filt := { e.filt with buffer := e.filt.buffer ++ l } }
  | 0, e, _ => ⟨[], rfl, by
      show Except.ok e = _
      congr 1
      refine DigitalEstimator.ext ?_ rfl rfl rfl rfl
      refine Filter.ext rfl rfl rfl rfl rfl rfl rfl rfl rfl rfl rfl ?_ rfl
      simp⟩
  | n + 1, e, h => by
      obtain ⟨samp, hsamp0⟩ := Option.isSome_iff_exists.mp (h 0 (Nat.succ_pos n))
      have hsamp : e.s e.pos = some samp := hsamp0
      obtain ⟨l, hl, hfil⟩ := fillN_ok n { e with filt := e.filt.input samp, pos := e.pos + 1 }
        (fun j hj => by
          show (e.s (e.pos + 1 + j)).isSome
          have hx : e.pos + 1 + j = e.pos + (j + 1) := by omega
          rw [hx]
          exact h (j + 1) (Nat.succ_lt_succ hj))
      refine ⟨samp :: l, by simp [hl], ?_⟩
      simp only [DigitalEstimator.fillN, hsamp]
      rw [hfil]
      congr 1
      refine DigitalEstimator.ext ?_ rfl ?_ rfl rfl
      · refine Filter.ext rfl rfl rfl rfl rfl rfl rfl rfl rfl rfl rfl ?_ rfl
        simp [Filter.input]
      · show e.pos + 1 + n = e.pos + (n + 1)
        omega

/-- If the source runs out at relative position `j` while `n > j`
samples are still needed, the fill loop propagates the exhaustion. -/
theorem fillN_exhausts : ∀ (n : Nat) (e : DigitalEstimator) (j : Nat), j < n →
    (∀ i, i < j → (e.s (e.pos + i)).isSome) → e.s (e.pos + j) = none →
    DigitalEstimator.fillN n e = .error .streamExhausted
  | 0, _, j, hj, _, _ => absurd hj (Nat.not_lt_zero j)
  | n + 1, e, 0, _, _, hnone => by
      have hnone' : e.s e.pos = none := hnone
      simp only [DigitalEstimator.fillN]
      rw [hnone']
  | n + 1, e, j + 1, hj, hbef, hnone => by
      obtain ⟨samp, hsamp0⟩ := Option.isSome_iff_exists.mp (hbef 0 (Nat.succ_pos j))
      have hsamp : e.s e.pos = some samp := hsamp0
      simp only [DigitalEstimator.fillN]
      rw [hsamp]
      refine fillN_exhausts n _ j (Nat.lt_of_succ_lt_succ hj) (fun i hi => ?_) ?_
      · show (e.s (e.pos + 1 + i)).isSome
        have hx : e.pos + 1 + i = e.pos + (i + 1) := by omega
        rw [hx]
        exact hbef (i + 1) (Nat.succ_lt_succ hi)
      · show e.s (e.pos + 1 + j) = none
        have hx : e.pos + 1 + j = e.pos + (j + 1) := by omega
        rw [hx]
        exact hnone

/-- A pull with the stop condition met signals end-of-sequence. -/
theorem next_stop (e : DigitalEstimator) (h : e.stopCondition) :
    e.next = .error .streamExhausted := by
  unfold DigitalEstimator.next
  rw [if_pos h]

/-- A filter with a buffered output sample is not `empty`. -/
theorem empty_eq_false_of_ne_nil (f : Filter) (h : f.estimates ≠ []) :
    ¬ f.empty = true :=
  fun hEmp => h (List.isEmpty_iff.mp hEmp)

/-- A pull with a buffered output sample returns and consumes it. -/
theorem next_output_branch (e : DigitalEstimator) (hcap : ¬ e.stopCondition)
    (hne : e.filt.estimates ≠ []) : e.next = .ok e.output := by
  unfold DigitalEstimator.next
  rw [if_neg hcap, if_pos (empty_eq_false_of_ne_nil e.filt hne)]

/-- A pull with no buffered output, a positive batch size, a window not
beyond capacity and enough upstream samples: the adapter reads exactly
the missing samples, computes one batch, and returns its first sample. -/
theorem next_refill (e : DigitalEstimator) (hcap : ¬ e.stopCondition)
    (hemp : e.filt.estimates = [])
    (hK1 : 1 ≤ e.filt.K1)
    (hlen : e.filt.buffer.length ≤ e.filt.K1 + e.filt.K2)
    (hsrc : ∀ j, j < e.filt.K1 + e.filt.K2 - e.filt.buffer.length →
      (e.s (e.pos + j)).isSome) :
    ∃ e₂ : DigitalEstimator,
      e.fill = .ok e₂ ∧
      e₂.s = e.s ∧ e₂.size = e.size ∧ e₂.iteration = e.iteration ∧
      e₂.filt.K1 = e.filt.K1 ∧ e₂.filt.K2 = e.filt.K2 ∧
      e₂.filt.estimates = e.filt.estimates ∧
      e₂.pos = e.pos + (e.filt.K1 + e.filt.K2 - e.filt.buffer.length) ∧
      e₂.filt.buffer.length = e.filt.K1 + e.filt.K2 ∧
      e₂.filt.compute_batch = .ok (batchResult e₂.filt) ∧
      e.next = .ok (DigitalEstimator.output { e₂ with filt := batchResult e₂.filt }) := by
  obtain ⟨l, hl, hfill⟩ := fillN_ok (e.filt.K1 + e.filt.K2 - e.filt.buffer.length) e hsrc
  have hfill' : e.fill = .ok { e with
      pos := e.pos + (e.filt.K1 + e.filt.K2 - e.filt.buffer.length),
      filt := { e.filt with buffer := e.filt.buffer ++ l } } := hfill
  have hbuf : ({ e.filt with buffer := e.filt.buffer ++ l } : Filter).buffer.length =
      e.filt.K1 + e.filt.K2 := by
    show (e.filt.buffer ++ l).length = _
    rw [List.length_append, hl]
    omega
  have hcb := compute_batch_full { e.filt with buffer := e.filt.buffer ++ l } hbuf
  refine ⟨_, hfill', rfl, rfl, rfl, rfl, rfl, by rw [hemp], rfl, hbuf, hcb, ?_⟩
  have hlenE : (batchResult ({ e.filt with buffer := e.filt.buffer ++ l } : Filter)).estimates.length =
      e.filt.K1 := batchResult_estimates_length _ hbuf
  have hne3 : (batchResult ({ e.filt with buffer := e.filt.buffer ++ l } : Filter)).estimates ≠ [] := by
    intro hnil
    rw [hnil] at hlenE
    simp only [List.length_nil] at hlenE
    omega
  unfold DigitalEstimator.next
  rw [if_neg hcap,
    if_neg (not_not_intro (show (Filter.empty e.filt) = true by
      simp [Filter.empty, hemp]))]
  split
  · rename_i err heq
    rw [hfill'] at heq
    cases heq
  · rename_i e₂' heq
    rw [hfill'] at heq
    injection heq with heq
    subst heq
    split
    · rename_i err heq2
      rw [hcb] at heq2
      cases heq2
    · rename_i f₃ heq2
      rw [hcb] at heq2
      injection heq2 with heq2
      subst heq2
      dsimp only []
      split
      · rename_i hstop
        exact absurd hstop hcap
      · split
        · rfl
        · rename_i hnemp
          exact absurd (empty_eq_false_of_ne_nil _ hne3) hnemp

/-- C4: below the iteration cap, one pull either returns and consumes a
buffered unresolved output sample when one exists, or, when none exists
and the source suffices, feeds samples from the source into the engine
exactly until the window holds K1+K2 samples, invokes `compute_batch`
once, and returns the first sample of the freshly computed batch
(consuming it from the batch). -/
theorem next_pull_behaviour (e : DigitalEstimator) (hcap : ¬ e.stopCondition)
    (hK1 : 1 ≤ e.filt.K1)
    (hlen : e.filt.buffer.length ≤ e.filt.K1 + e.filt.K2) :
    (e.filt.estimates ≠ [] → e.next = .ok e.output) ∧
    (e.filt.estimates = [] →
      (∀ j, j < e.filt.K1 + e.filt.K2 - e.filt.buffer.length →
        (e.s (e.pos + j)).isSome) →
      ∃ e₂ : DigitalEstimator,
        e.fill = .ok e₂ ∧
        e₂.pos = e.pos + (e.filt.K1 + e.filt.K2 - e.filt.buffer.length) ∧
        e₂.filt.buffer.length = e.filt.K1 + e.filt.K2 ∧
        e₂.filt.compute_batch = .ok (batchResult e₂.filt) ∧
        (batchResult e₂.filt).estimates.length = e.filt.K1 ∧
        e.next = .ok ((batchResult e₂.filt).estimates.headI,
          { e₂ with
            filt := { (batchResult e₂.filt) with
                      estimates := (batchResult e₂.filt).estimates.tail },
            iteration := e₂.iteration + 1 })) := by
  constructor
  · exact fun hne => next_output_branch e hcap hne
  · intro hemp hsrc
    obtain ⟨e₂, hfill, hs, hsz, hit, hk1, hk2, hest, hpos, hbuf, hcb, hnext⟩ :=
      next_refill e hcap hemp hK1 hlen hsrc
    refine ⟨e₂, hfill, hpos, hbuf, hcb, ?_, hnext⟩
    have hfull : e₂.filt.buffer.length = e₂.filt.K1 + e₂.filt.K2 := by
      rw [hbuf, hk1, hk2]
    have hlenE := batchResult_estimates_length e₂.filt hfull
    rw [hk1] at hlenE
    exact hlenE

/-- Witness for C4: the one-dimensional estimator on the all-zero
source. -/
theorem next_pull_behaviour_witness :
    (¬ cexEstimatorC7.stopCondition) ∧
      1 ≤ cexEstimatorC7.filt.K1 ∧
      cexEstimatorC7.filt.buffer.length ≤
        cexEstimatorC7.filt.K1 + cexEstimatorC7.filt.K2 ∧
      ((cexEstimatorC7.filt.estimates ≠ [] →
          cexEstimatorC7.next = .ok cexEstimatorC7.output) ∧
        (cexEstimatorC7.filt.estimates = [] →
          (∀ j, j < cexEstimatorC7.filt.K1 + cexEstimatorC7.filt.K2 -
              cexEstimatorC7.filt.buffer.length →
            (cexEstimatorC7.s (cexEstimatorC7.pos + j)).isSome) →
          ∃ e₂ : DigitalEstimator,
            cexEstimatorC7.fill = .ok e₂ ∧
            e₂.pos = cexEstimatorC7.pos + (cexEstimatorC7.filt.K1 +
              cexEstimatorC7.filt.K2 - cexEstimatorC7.filt.buffer.length) ∧
            e₂.filt.buffer.length = cexEstimatorC7.filt.K1 + cexEstimatorC7.filt.K2 ∧
            e₂.filt.compute_batch = .ok (batchResult e₂.filt) ∧
            (batchResult e₂.filt).estimates.length = cexEstimatorC7.filt.K1 ∧
            cexEstimatorC7.next = .ok ((batchResult e₂.filt).estimates.headI,
              { e₂ with
                filt := { (batchResult e₂.filt) with
                          estimates := (batchResult e₂.filt).estimates.tail },
                iteration := e₂.iteration + 1 }))) :=
  ⟨by decide, by decide, by decide,
   next_pull_behaviour cexEstimatorC7 (by decide) (by decide) (by decide)⟩

/-- C8: when the upstream source is exhausted while the adapter is
filling the window (position `j` of the missing samples is the first
unavailable one), the pull propagates the exhaustion as the normal
end-of-sequence signal `streamExhausted` and no other error. -/
theorem next_propagates_source_exhaustion (e : DigitalEstimator)
    (hcap : ¬ e.stopCondition) (hemp : e.filt.estimates = [])
    (j : Nat) (hj : j < e.filt.K1 + e.filt.K2 - e.filt.buffer.length)
    (hbef : ∀ i, i < j → (e.s (e.pos + i)).isSome)
    (hnone : e.s (e.pos + j) = none) :
    e.next = .error .streamExhausted := by
  have hfillerr : e.fill = .error .streamExhausted :=
    fillN_exhausts _ e j hj hbef hnone
  unfold DigitalEstimator.next
  rw [if_neg hcap,
    if_neg (not_not_intro (show Filter.empty e.filt = true by
      simp [Filter.empty, hemp])), hfillerr]

/-- Witness for C8: the estimator over the immediately exhausted
source. -/
theorem next_propagates_source_exhaustion_witness :
    (¬ cexEstimatorC8.stopCondition) ∧
      cexEstimatorC8.filt.estimates = [] ∧
      0 < cexEstimatorC8.filt.K1 + cexEstimatorC8.filt.K2 -
        cexEstimatorC8.filt.buffer.length ∧
      cexEstimatorC8.s (cexEstimatorC8.pos + 0) = none ∧
      cexEstimatorC8.next = .error .streamExhausted :=
  ⟨by decide, by decide, by decide, rfl,
   next_propagates_source_exhaustion cexEstimatorC8 (by decide) (by decide) 0
     (by decide) (fun i hi => absurd hi (Nat.not_lt_zero i)) rfl⟩

/-- A computed batch leaves the batch size unchanged. -/
theorem batchResult_K1 (f : Filter) : (batchResult f).K1 = f.K1 := rfl

/-- A computed batch leaves the lookahead unchanged. -/
theorem batchResult_K2 (f : Filter) : (batchResult f).K2 = f.K2 := rfl

/-- Below the cap, a pull from a good state succeeds, preserves the
goodness invariant and the configured stop count, and advances the
iteration counter by one. -/
theorem next_progress (e : DigitalEstimator) (hg : GoodState e)
    (hcap : ¬ e.stopCondition) :
    ∃ v e₂, e.next = .ok (v, e₂) ∧ GoodState e₂ ∧ e₂.size = e.size ∧
      e₂.iteration = e.iteration + 1 := by
  obtain ⟨hK1, hlen, hsrc⟩ := hg
  by_cases hemp : e.filt.estimates = []
  · obtain ⟨e₂, hfill, hs, hsz, hit, hk1, hk2, hest, hpos, hbuf, hcb, hnext⟩ :=
      next_refill e hcap hemp hK1 hlen (fun j _ => hsrc (e.pos + j))
    have hfull : e₂.filt.buffer.length = e₂.filt.K1 + e₂.filt.K2 := by
      rw [hbuf, hk1, hk2]
    refine ⟨_, _, hnext, ⟨?_, ?_, ?_⟩, hsz, by
      show e₂.iteration + 1 = e.iteration + 1
      rw [hit]⟩
    · show 1 ≤ (batchResult e₂.filt).K1
      rw [batchResult_K1, hk1]
      exact hK1
    · show (batchResult e₂.filt).buffer.length ≤
        (batchResult e₂.filt).K1 + (batchResult e₂.filt).K2
      rw [batchResult_K1, batchResult_K2, batchResult_buffer_length e₂.filt hfull]
      omega
    · show ∀ i, (e₂.s i).isSome
      rw [hs]
      exact hsrc
  · have hnext := next_output_branch e hcap hemp
    exact ⟨_, _, hnext, ⟨hK1, hlen, hsrc⟩, rfl, rfl⟩

/-- As long as the configured stop count cannot be reached, `m` pulls
all succeed and return `m` samples. -/
theorem run_all_ok : ∀ (m : Nat) (e : DigitalEstimator), GoodState e →
    (e.size = 0 ∨ m + e.iteration ≤ e.size + 1) →
    (e.run m).2 = none ∧ (e.run m).1.length = m
  | 0, _, _, _ => ⟨rfl, rfl⟩
  | m + 1, e, hg, hbound => by
      have hcap : ¬ e.stopCondition := by
        unfold DigitalEstimator.stopCondition
        rcases hbound with h0 | hle
        · exact fun hc => hc.1 h0
        · exact fun hc => by omega
      obtain ⟨v, e₂, hnext, hg₂, hsz, hit⟩ := next_progress e hg hcap
      have ih := run_all_ok m e₂ hg₂ (by
        rcases hbound with h0 | hle
        · exact Or.inl (by rw [hsz, h0])
        · exact Or.inr (by omega))
      have hrun : e.run (m + 1) = (v :: (e₂.run m).1, (e₂.run m).2) := by
        simp only [DigitalEstimator.run]
        rw [hnext]
      rw [hrun]
      exact ⟨ih.1, by rw [List.length_cons, ih.2]⟩

/-- With a nonzero stop count and enough pulls, the run signals
end-of-sequence after returning exactly `size + 1 - iteration` further
samples. -/
theorem run_stops : ∀ (m : Nat) (e : DigitalEstimator), GoodState e →
    e.size ≠ 0 → 1 ≤ m → e.size + 1 < m + e.iteration →
    (e.run m).2 = some .streamExhausted ∧
      (e.run m).1.length = e.size + 1 - e.iteration
  | 0, _, _, _, h1, _ => absurd h1 (by omega)
  | m + 1, e, hg, hsz0, _, hbound => by
      by_cases hcap : e.stopCondition
      · have hrun : e.run (m + 1) = ([], some .streamExhausted) := by
          simp only [DigitalEstimator.run]
          rw [next_stop e hcap]
        rw [hrun]
        refine ⟨rfl, ?_⟩
        have hlt : e.size < e.iteration := hcap.2
        show (0 : Nat) = e.size + 1 - e.iteration
        omega
      · obtain ⟨v, e₂, hnext, hg₂, hsz, hit⟩ := next_progress e hg hcap
        have hitle : e.iteration ≤ e.size := by
          by_contra hlt
          exact hcap ⟨hsz0, by omega⟩
        have hm1 : 1 ≤ m := by omega
        have ih := run_stops m e₂ hg₂ (by rw [hsz]; exact hsz0) hm1 (by
          rw [hsz, hit]
          omega)
        have hrun : e.run (m + 1) = (v :: (e₂.run m).1, (e₂.run m).2) := by
          simp only [DigitalEstimator.run]
          rw [hnext]
        rw [hrun]
        refine ⟨ih.1, ?_⟩
        rw [List.length_cons, ih.2, hsz, hit]
        omega

/-- C5: with a positive iteration cap `n` the adapter returns exactly
`n` samples and then signals end-of-sequence on the next pull; with the
default cap 0 it never signals end-of-sequence on its own (on an
inexhaustible source every pull succeeds). -/
theorem stop_count_terminates_exactly
    (src : Nat → Option Vec) (c : Unit → FilterCoefficients) (eta2 : ℚ)
    (K1 K2 : Int) (hsrc : ∀ i, (src i).isSome) (hK1 : 1 ≤ K1) (hK2 : 0 ≤ K2) :
    (∀ (n : Int) (e : DigitalEstimator), 0 < n →
      DigitalEstimator.init src c eta2 K1 K2 n = .ok e →
      (e.run n.toNat).2 = none ∧ (e.run n.toNat).1.length = n.toNat ∧
        (e.run (n.toNat + 1)).2 = some .streamExhausted) ∧
    (∀ e : DigitalEstimator,
      DigitalEstimator.init src c eta2 K1 K2 0 = .ok e →
      ∀ m, (e.run m).2 = none ∧ (e.run m).1.length = m) := by
  constructor
  · intro n e hn hinit
    unfold DigitalEstimator.init at hinit
    rw [if_neg (by omega), if_neg (by omega), if_neg (by omega)] at hinit
    injection hinit with hinit
    have hgood : GoodState e := by
      rw [← hinit]
      exact ⟨by show 1 ≤ K1.toNat; omega, Nat.zero_le _, hsrc⟩
    have hsize : e.size = n.toNat := by rw [← hinit]
    have hiter : e.iteration = 1 := by rw [← hinit]
    have h1 := run_all_ok n.toNat e hgood (Or.inr (by rw [hsize, hiter]))
    have h2 := run_stops (n.toNat + 1) e hgood
      (by rw [hsize]; omega) (by omega) (by rw [hsize, hiter]; omega)
    exact ⟨h1.1, h1.2, h2.1⟩
  · intro e hinit m
    unfold DigitalEstimator.init at hinit
    rw [if_neg (by omega), if_neg (by omega), if_neg (by omega)] at hinit
    injection hinit with hinit
    have hgood : GoodState e := by
      rw [← hinit]
      exact ⟨by show 1 ≤ K1.toNat; omega, Nat.zero_le _, hsrc⟩
    have hsize : e.size = 0 := by
      rw [← hinit]
      rfl
    exact run_all_ok m e hgood (Or.inl hsize)

/-- Witness for C5: the one-dimensional configuration on the
inexhaustible all-zero source with cap 2 and with the default cap. -/
theorem stop_count_terminates_exactly_witness :
    (∀ i, (zeroSourceOne i).isSome) ∧ ((1 : Int) ≤ 1) ∧ ((0 : Int) ≤ 0) ∧
      ((∀ (n : Int) (e : DigitalEstimator), 0 < n →
        DigitalEstimator.init zeroSourceOne (fun _ => cexCoefficients) 1 1 0 n = .ok e →
        (e.run n.toNat).2 = none ∧ (e.run n.toNat).1.length = n.toNat ∧
          (e.run (n.toNat + 1)).2 = some .streamExhausted) ∧
      (∀ e : DigitalEstimator,
        DigitalEstimator.init zeroSourceOne (fun _ => cexCoefficients) 1 1 0 0 = .ok e →
        ∀ m, (e.run m).2 = none ∧ (e.run m).1.length = m)) :=
  ⟨fun _ => rfl, by decide, by decide,
   stop_count_terminates_exactly zeroSourceOne (fun _ => cexCoefficients) 1 1 0
     (fun _ => rfl) (by decide) (by decide)⟩

/-! ### Negation lemmas for the zero-stream / ones-stream correspondence -/

/-- Negating the zero vector gives the zero vector. -/
theorem negVec_zeroVec (n : Nat) : negVec (zeroVec n) = zeroVec n := by
  simp [negVec, zeroVec]

/-- Vector negation is an involution. -/
theorem negVec_negVec (v : Vec) : negVec (negVec v) = v := by
  simp [negVec, List.map_map]

/-- The mapped zero sample is the negation of the mapped ones sample. -/
theorem mapSample_zero_eq_neg_ones (m : Nat) :
    mapSample (zeroVec m) = negVec (mapSample (List.replicate m 1)) := by
  simp [mapSample, zeroVec, negVec, List.map_replicate]
  norm_num

/-- Summing a negated list negates the sum. -/
theorem sum_map_neg : ∀ l : List ℚ, (l.map (fun x => -x)).sum = -l.sum
  | [] => by simp
  | a :: l => by
      simp only [List.map_cons, List.sum_cons, sum_map_neg l]
      ring

/-- A dot product against a negated vector is negated. -/
theorem dotL_negVec : ∀ r v : Vec, dotL r (negVec v) = -(dotL r v)
  | [], v => by cases v <;> simp [dotL, negVec]
  | a :: r, [] => by simp [dotL, negVec]
  | a :: r, b :: v => by
      have ih := dotL_negVec r v
      simp only [dotL, negVec, List.map_cons, List.zipWith_cons_cons,
        List.sum_cons] at ih ⊢
      rw [ih]
      ring

/-- A matrix applied to a negated vector yields the negated product. -/
theorem mulVec_negVec : ∀ (A : Mat) (v : Vec),
    mulVec A (negVec v) = negVec (mulVec A v)
  | [], _ => rfl
  | r :: A, v => by
      show dotL r (negVec v) :: mulVec A (negVec v) = negVec (dotL r v :: mulVec A v)
      rw [dotL_negVec, mulVec_negVec A v]
      rfl

/-- Adding two negated vectors negates the sum. -/
theorem addVec_negVec : ∀ a b : Vec,
    addVec (negVec a) (negVec b) = negVec (addVec a b)
  | [], b => by simp [addVec, negVec]
  | a :: as, [] => by simp [addVec, negVec]
  | a :: as, b :: bs => by
      simp only [addVec, negVec, List.map_cons, List.zipWith_cons_cons]
      rw [show (List.zipWith (· + ·) (as.map (fun x => -x)) (bs.map (fun x => -x))) =
        addVec (negVec as) (negVec bs) from rfl, addVec_negVec as bs]
      simp [addVec, negVec]
      ring

/-- Subtracting two negated vectors negates the difference. -/
theorem subVec_negVec : ∀ a b : Vec,
    subVec (negVec a) (negVec b) = negVec (subVec a b)
  | [], b => by simp [subVec, negVec]
  | a :: as, [] => by simp [subVec, negVec]
  | a :: as, b :: bs => by
      simp only [subVec, negVec, List.map_cons, List.zipWith_cons_cons]
      rw [show (List.zipWith (· - ·) (as.map (fun x => -x)) (bs.map (fun x => -x))) =
        subVec (negVec as) (negVec bs) from rfl, subVec_negVec as bs]
      simp [subVec, negVec]
      ring

/-- The head of an elementwise-negated list of vectors. -/
theorem headI_map_negVec : ∀ l : List Vec, (l.map negVec).headI = negVec l.headI
  | [] => rfl
  | _ :: _ => rfl

/-- The tail of a mapped list. -/
theorem tail_map_negVec : ∀ l : List Vec, (l.map negVec).tail = l.tail.map negVec
  | [] => rfl
  | _ :: _ => rfl

/-- Emptiness of a mapped list. -/
theorem isEmpty_map_negVec : ∀ l : List Vec, (l.map negVec).isEmpty = l.isEmpty
  | [] => rfl
  | _ :: _ => rfl

/-- `getD` with default `[]` through an elementwise negation. -/
theorem getD_map_negVec : ∀ (l : List Vec) (i : Nat),
    (l.map negVec).getD i [] = negVec (l.getD i [])
  | [], i => by simp [negVec]
  | v :: l, 0 => rfl
  | v :: l, i + 1 => getD_map_negVec l i

/-- Dropping from a replicated list. -/
theorem drop_replicate (a : Vec) : ∀ (n k : Nat),
    (List.replicate k a).drop n = List.replicate (k - n) a
  | 0, k => rfl
  | n + 1, 0 => by simp
  | n + 1, k + 1 => by
      simp only [List.replicate_succ, List.drop_succ_cons, Nat.succ_sub_succ]
      exact drop_replicate a n k

/-- The forward pass over all-ones samples from a negated carried state
is the elementwise negation of the pass over all-zero samples. -/
theorem forwardPass_mirror (Af Bf : Mat) (m : Nat) : ∀ (k : Nat) (mf0 : Vec),
    forwardPass Af Bf (negVec mf0) (List.replicate k (List.replicate m 1)) =
      (forwardPass Af Bf mf0 (List.replicate k (zeroVec m))).map negVec
  | 0, _ => rfl
  | k + 1, mf0 => by
      have hstep : addVec (mulVec Af (negVec mf0)) (mulVec Bf (mapSample (List.replicate m 1))) =
          negVec (addVec (mulVec Af mf0) (mulVec Bf (mapSample (zeroVec m)))) := by
        rw [mapSample_zero_eq_neg_ones m, mulVec_negVec Bf, mulVec_negVec Af,
          ← addVec_negVec, negVec_negVec]
      have ih := forwardPass_mirror Af Bf m k
        (addVec (mulVec Af mf0) (mulVec Bf (mapSample (zeroVec m))))
      simp only [forwardPass, List.replicate_succ, List.scanl_cons, List.map_append,
        List.map_cons, List.map_nil] at ih ⊢
      rw [hstep, ih]

/-- The backward pass over all-ones samples is the elementwise negation
of the pass over all-zero samples. -/
theorem backwardPass_mirror (Ab Bb : Mat) (n m : Nat) : ∀ k : Nat,
    backwardPass Ab Bb n (List.replicate k (List.replicate m 1)) =
      (backwardPass Ab Bb n (List.replicate k (zeroVec m))).map negVec
  | 0 => by
      show [zeroVec n] = [negVec (zeroVec n)]
      rw [negVec_zeroVec]
  | k + 1 => by
      have ih := backwardPass_mirror Ab Bb n m k
      simp only [backwardPass, List.replicate_succ, List.foldr_cons] at ih ⊢
      rw [List.map_cons, ih, headI_map_negVec, mapSample_zero_eq_neg_ones m,
        mulVec_negVec Bb, mulVec_negVec Ab, ← addVec_negVec, negVec_negVec]

/-- Combining negated forward/backward states negates the emitted
samples, pointwise over the zipped lists. -/
theorem zipWith_estimates_negVec (W : Mat) : ∀ (as bs : List Vec),
    List.zipWith (fun mb mfp => mulVec W (subVec mb mfp)) (as.map negVec) (bs.map negVec) =
      (List.zipWith (fun mb mfp => mulVec W (subVec mb mfp)) as bs).map negVec
  | [], _ => by simp
  | _ :: _, [] => by simp
  | a :: as, b :: bs => by
      simp only [List.map_cons, List.zipWith_cons_cons]
      rw [subVec_negVec, mulVec_negVec, zipWith_estimates_negVec W as bs]

/-- A batch over all-ones windows from a negated state produces the
negated carried state and the negated output block; the retained
lookahead windows stay all-zero / all-ones. -/
theorem batchResult_mirror (m : Nat) (f₁ f₂ : Filter)
    (hK1 : f₂.K1 = f₁.K1) (hN : f₂.N = f₁.N)
    (hAf : f₂.Af = f₁.Af) (hAb : f₂.Ab = f₁.Ab) (hBf : f₂.Bf = f₁.Bf)
    (hBb : f₂.Bb = f₁.Bb) (hWT : f₂.WT = f₁.WT)
    (hmf : f₂.mf = negVec f₁.mf)
    (k : Nat)
    (hb₁ : f₁.buffer = List.replicate k (zeroVec m))
    (hb₂ : f₂.buffer = List.replicate k (List.replicate m 1)) :
    (batchResult f₂).mf = negVec ((batchResult f₁).mf) ∧
    (batchResult f₂).estimates = ((batchResult f₁).estimates).map negVec ∧
    (batchResult f₁).buffer = List.replicate (k - f₁.K1) (zeroVec m) ∧
    (batchResult f₂).buffer = List.replicate (k - f₁.K1) (List.replicate m 1) := by
  have hfwd : forwardPass f₂.Af f₂.Bf f₂.mf f₂.buffer =
      (forwardPass f₁.Af f₁.Bf f₁.mf f₁.buffer).map negVec := by
    rw [hAf, hBf, hmf, hb₁, hb₂]
    exact forwardPass_mirror f₁.Af f₁.Bf m k f₁.mf
  have hbwd : backwardPass f₂.Ab f₂.Bb f₂.N f₂.buffer =
      (backwardPass f₁.Ab f₁.Bb f₁.N f₁.buffer).map negVec := by
    rw [hAb, hBb, hN, hb₁, hb₂]
    exact backwardPass_mirror f₁.Ab f₁.Bb f₁.N m k
  refine ⟨?_, ?_, ?_, ?_⟩
  · show (forwardPass f₂.Af f₂.Bf f₂.mf f₂.buffer).getD f₂.K1 [] =
      negVec ((forwardPass f₁.Af f₁.Bf f₁.mf f₁.buffer).getD f₁.K1 [])
    rw [hfwd, hK1, getD_map_negVec]
  · show (List.zipWith (fun mb mfp => mulVec f₂.WT (subVec mb mfp))
        (backwardPass f₂.Ab f₂.Bb f₂.N f₂.buffer)
        (forwardPass f₂.Af f₂.Bf f₂.mf f₂.buffer)).take f₂.K1 =
      ((List.zipWith (fun mb mfp => mulVec f₁.WT (subVec mb mfp))
        (backwardPass f₁.Ab f₁.Bb f₁.N f₁.buffer)
        (forwardPass f₁.Af f₁.Bf f₁.mf f₁.buffer)).take f₁.K1).map negVec
    rw [hWT, hfwd, hbwd, hK1, zipWith_estimates_negVec, List.map_take]
  · show f₁.buffer.drop f₁.K1 = _
    rw [hb₁, drop_replicate]
  · show f₂.buffer.drop f₂.K1 = _
    rw [hb₂, hK1, drop_replicate]

/-- Filling from a constant source appends exactly the replicated
sample. -/
theorem fillN_const (cv : Vec) : ∀ (n : Nat) (e : DigitalEstimator),
    e.s = (fun _ => some cv) →
    DigitalEstimator.fillN n e =
      .ok { e with pos := e.pos + n,
                   filt := { e.filt with buffer := e.filt.buffer ++ List.replicate n cv } }
  | 0, e, _ => by
      show Except.ok e = _
      congr 1
      refine DigitalEstimator.ext ?_ rfl rfl rfl rfl
      refine Filter.ext rfl rfl rfl rfl rfl rfl rfl rfl rfl rfl rfl ?_ rfl
      simp
  | n + 1, e, hs => by
      have hsamp : e.s e.pos = some cv := by rw [hs]
      simp only [DigitalEstimator.fillN, hsamp]
      rw [fillN_const cv n { e with filt := e.filt.input cv, pos := e.pos + 1 } hs]
      congr 1
      refine DigitalEstimator.ext ?_ rfl ?_ rfl rfl
      · refine Filter.ext rfl rfl rfl rfl rfl rfl rfl rfl rfl rfl rfl ?_ rfl
        show (e.filt.buffer ++ [cv]) ++ List.replicate n cv =
          e.filt.buffer ++ List.replicate (n + 1) cv
        rw [List.append_assoc]
        congr 1
      · show e.pos + 1 + n = e.pos + (n + 1)
        omega

/-- One pull on mirrored states: errors coincide, and returned samples
are negatives with the mirror preserved. -/
theorem next_mirror (m : Nat) (e₁ e₂ : DigitalEstimator)
    (h : NegMirror m e₁ e₂) (hg : GoodState e₁) :
    (∀ err, e₁.next = .error err → e₂.next = .error err) ∧
    (∀ v e₁', e₁.next = .ok (v, e₁') →
      ∃ e₂', e₂.next = .ok (negVec v, e₂') ∧ NegMirror m e₁' e₂' ∧ GoodState e₁') := by
  obtain ⟨hK1, hlen, hsrcAll⟩ := hg
  by_cases hstop : e₁.stopCondition
  · have hstop₂ : e₂.stopCondition :=
      ⟨by rw [h.size]; exact hstop.1, by rw [h.size, h.iter]; exact hstop.2⟩
    have hn₁ := next_stop e₁ hstop
    have hn₂ := next_stop e₂ hstop₂
    constructor
    · intro err herr
      rw [hn₁] at herr
      injection herr with herr
      rw [hn₂, herr]
    · intro v e₁' hok
      rw [hn₁] at hok
      cases hok
  · have hstop₂ : ¬ e₂.stopCondition := fun hc =>
      hstop ⟨by rw [← h.size]; exact hc.1, by rw [← h.size, ← h.iter]; exact hc.2⟩
    by_cases hemp : e₁.filt.estimates = []
    · -- refill case
      have hemp₂ : e₂.filt.estimates = [] := by rw [h.hest, hemp]; rfl
      have hK1₂ : 1 ≤ e₂.filt.K1 := by rw [h.hK1]; exact hK1
      have hlen₂eq : e₂.filt.buffer.length = e₁.filt.buffer.length := by
        rw [h.buf₂, List.length_replicate]
      have hlen₂ : e₂.filt.buffer.length ≤ e₂.filt.K1 + e₂.filt.K2 := by
        rw [h.hK1, h.hK2, hlen₂eq]
        exact hlen
      have hneed : e₂.filt.K1 + e₂.filt.K2 - e₂.filt.buffer.length =
          e₁.filt.K1 + e₁.filt.K2 - e₁.filt.buffer.length := by
        rw [h.hK1, h.hK2, hlen₂eq]
      obtain ⟨X₁, hfX₁, hs₁, hsz₁, hit₁, hk1₁, hk2₁, hest₁, hpos₁, hbuf₁, hcb₁, hnext₁⟩ :=
        next_refill e₁ hstop hemp hK1 hlen (fun j _ => by rw [h.src₁]; rfl)
      obtain ⟨X₂, hfX₂, hs₂, hsz₂, hit₂, hk1₂, hk2₂, hest₂, hpos₂, hbuf₂, hcb₂, hnext₂⟩ :=
        next_refill e₂ hstop₂ hemp₂ hK1₂ hlen₂ (fun j _ => by rw [h.src₂]; rfl)
      have hE₁ : e₁.fill = .ok { e₁ with
          pos := e₁.pos + (e₁.filt.K1 + e₁.filt.K2 - e₁.filt.buffer.length),
          filt := { e₁.filt with
                    buffer := e₁.filt.buffer ++
                      List.replicate (e₁.filt.K1 + e₁.filt.K2 - e₁.filt.buffer.length)
                        (zeroVec m) } } :=
        fillN_const (zeroVec m) _ e₁ (by rw [h.src₁]; rfl)
      have hE₂ : e₂.fill = .ok { e₂ with
          pos := e₂.pos + (e₂.filt.K1 + e₂.filt.K2 - e₂.filt.buffer.length),
          filt := { e₂.filt with
                    buffer := e₂.filt.buffer ++
                      List.replicate (e₂.filt.K1 + e₂.filt.K2 - e₂.filt.buffer.length)
                        (List.replicate m 1) } } :=
        fillN_const (List.replicate m 1) _ e₂ (by rw [h.src₂]; rfl)
      rw [hE₁] at hfX₁
      injection hfX₁ with hX₁
      rw [hE₂] at hfX₂
      injection hfX₂ with hX₂
      have hbufX₁ : X₁.filt.buffer =
          List.replicate (e₁.filt.buffer.length +
            (e₁.filt.K1 + e₁.filt.K2 - e₁.filt.buffer.length)) (zeroVec m) := by
        have hb : X₁.filt.buffer = e₁.filt.buffer ++
            List.replicate (e₁.filt.K1 + e₁.filt.K2 - e₁.filt.buffer.length) (zeroVec m) := by
          rw [← hX₁]
        rw [hb, List.replicate_add, ← h.buf₁]
      have hbufX₂ : X₂.filt.buffer =
          List.replicate (e₁.filt.buffer.length +
            (e₁.filt.K1 + e₁.filt.K2 - e₁.filt.buffer.length)) (List.replicate m 1) := by
        have hb : X₂.filt.buffer = e₂.filt.buffer ++
            List.replicate (e₂.filt.K1 + e₂.filt.K2 - e₂.filt.buffer.length)
              (List.replicate m 1) := by
          rw [← hX₂]
        rw [hb, hneed, List.replicate_add, ← h.buf₂]
      have hXK1 : X₂.filt.K1 = X₁.filt.K1 := by rw [hk1₂, h.hK1, ← hk1₁]
      have hXN : X₂.filt.N = X₁.filt.N := by
        rw [← hX₁, ← hX₂]
        exact h.hN
      have hXAf : X₂.filt.Af = X₁.filt.Af := by
        rw [← hX₁, ← hX₂]
        exact h.hAf
      have hXAb : X₂.filt.Ab = X₁.filt.Ab := by
        rw [← hX₁, ← hX₂]
        exact h.hAb
      have hXBf : X₂.filt.Bf = X₁.filt.Bf := by
        rw [← hX₁, ← hX₂]
        exact h.hBf
      have hXBb : X₂.filt.Bb = X₁.filt.Bb := by
        rw [← hX₁, ← hX₂]
        exact h.hBb
      have hXWT : X₂.filt.WT = X₁.filt.WT := by
        rw [← hX₁, ← hX₂]
        exact h.hWT
      have hXmf : X₂.filt.mf = negVec X₁.filt.mf := by
        rw [← hX₁, ← hX₂]
        exact h.hmf
      obtain ⟨hmmf, hmest, hmbuf₁, hmbuf₂⟩ := batchResult_mirror m X₁.filt X₂.filt
        hXK1 hXN hXAf hXAb hXBf hXBb hXWT hXmf
        (e₁.filt.buffer.length + (e₁.filt.K1 + e₁.filt.K2 - e₁.filt.buffer.length))
        hbufX₁ hbufX₂
      constructor
      · intro err herr
        rw [hnext₁] at herr
        cases herr
      · intro v e₁' hok
        rw [hnext₁] at hok
        injection hok with hok
        have hv : (DigitalEstimator.output { X₁ with filt := batchResult X₁.filt }).1 = v :=
          congrArg Prod.fst hok
        have he : (DigitalEstimator.output { X₁ with filt := batchResult X₁.filt }).2 = e₁' :=
          congrArg Prod.snd hok
        refine ⟨(DigitalEstimator.output { X₂ with filt := batchResult X₂.filt }).2,
          ?_, ?_, ?_⟩
        · rw [hnext₂]
          congr 1
          have h1 : (DigitalEstimator.output { X₂ with filt := batchResult X₂.filt }).1 =
              negVec v := by
            show (batchResult X₂.filt).estimates.headI = negVec v
            rw [hmest, headI_map_negVec,
              show (batchResult X₁.filt).estimates.headI = v from hv]
          rw [← h1]
        · rw [← he]
          refine { src₁ := ?_, src₂ := ?_, pos := ?_, size := ?_,
                   iter := ?_, hK1 := ?_, hK2 := ?_, hN := ?_, hAf := ?_,
                   hAb := ?_, hBf := ?_, hBb := ?_, hWT := ?_,
                   buf₁ := ?_, buf₂ := ?_, hmf := hmmf, hest := ?_ }
          · show X₁.s = zeroSource m
            rw [hs₁, h.src₁]
          · show X₂.s = onesSource m
            rw [hs₂, h.src₂]
          · show X₂.pos = X₁.pos
            rw [hpos₂, hpos₁, h.pos, hneed]
          · show X₂.size = X₁.size
            rw [hsz₂, hsz₁, h.size]
          · show X₂.iteration + 1 = X₁.iteration + 1
            rw [hit₂, hit₁, h.iter]
          · show (batchResult X₂.filt).K1 = (batchResult X₁.filt).K1
            rw [batchResult_K1, batchResult_K1]
            exact hXK1
          · show (batchResult X₂.filt).K2 = (batchResult X₁.filt).K2
            rw [batchResult_K2, batchResult_K2]
            exact by rw [hk2₂, h.hK2, ← hk2₁]
          · show X₂.filt.N = X₁.filt.N
            exact hXN
          · show X₂.filt.Af = X₁.filt.Af
            exact hXAf
          · show X₂.filt.Ab = X₁.filt.Ab
            exact hXAb
          · show X₂.filt.Bf = X₁.filt.Bf
            exact hXBf
          · show X₂.filt.Bb = X₁.filt.Bb
            exact hXBb
          · show X₂.filt.WT = X₁.filt.WT
            exact hXWT
          · show (batchResult X₁.filt).buffer =
              List.replicate ((batchResult X₁.filt).buffer.length) (zeroVec m)
            rw [hmbuf₁, List.length_replicate]
          · show (batchResult X₂.filt).buffer =
              List.replicate ((batchResult X₁.filt).buffer.length) (List.replicate m 1)
            rw [hmbuf₂, hmbuf₁, List.length_replicate]
          · show ((batchResult X₂.filt).estimates).tail =
              ((batchResult X₁.filt).estimates).tail.map negVec
            rw [hmest, tail_map_negVec]
        · rw [← he]
          refine ⟨?_, ?_, ?_⟩
          · show 1 ≤ (batchResult X₁.filt).K1
            rw [batchResult_K1, hk1₁]
            exact hK1
          · show (batchResult X₁.filt).buffer.length ≤
              (batchResult X₁.filt).K1 + (batchResult X₁.filt).K2
            rw [batchResult_K1, batchResult_K2, hmbuf₁, List.length_replicate, hk1₁, hk2₁]
            omega
          · show ∀ i, (X₁.s i).isSome
            rw [hs₁]
            exact hsrcAll
    · -- buffered output case
      have hemp₂ : e₂.filt.estimates ≠ [] := by
        rw [h.hest]
        intro hnil
        exact hemp (List.map_eq_nil.mp hnil)
      have hn₁ := next_output_branch e₁ hstop hemp
      have hn₂ := next_output_branch e₂ hstop₂ hemp₂
      constructor
      · intro err herr
        rw [hn₁] at herr
        cases herr
      · intro v e₁' hok
        rw [hn₁] at hok
        injection hok with hok
        have hv : e₁.output.1 = v := congrArg Prod.fst hok
        have he : e₁.output.2 = e₁' := congrArg Prod.snd hok
        refine ⟨e₂.output.2, ?_, ?_, ?_⟩
        · rw [hn₂]
          congr 1
          have h1 : e₂.output.1 = negVec v := by
            show e₂.filt.estimates.headI = negVec v
            rw [h.hest, headI_map_negVec,
              show e₁.filt.estimates.headI = v from hv]
          rw [← h1]
        · rw [← he]
          refine { src₁ := h.src₁, src₂ := h.src₂, pos := h.pos, size := h.size,
                   iter := ?_, hK1 := h.hK1, hK2 := h.hK2, hN := h.hN, hAf := h.hAf,
                   hAb := h.hAb, hBf := h.hBf, hBb := h.hBb, hWT := h.hWT,
                   buf₁ := h.buf₁, buf₂ := h.buf₂, hmf := h.hmf, hest := ?_ }
          · show e₂.iteration + 1 = e₁.iteration + 1
            rw [h.iter]
          · show e₂.filt.estimates.tail = e₁.filt.estimates.tail.map negVec
            rw [h.hest, tail_map_negVec]
        · rw [← he]
          exact ⟨hK1, hlen, hsrcAll⟩

/-- Mirrored runs return elementwise-negated samples and identical
error signals. -/
theorem run_mirror (m : Nat) : ∀ (n : Nat) (e₁ e₂ : DigitalEstimator),
    NegMirror m e₁ e₂ → GoodState e₁ →
    (e₂.run n).1 = ((e₁.run n).1).map negVec ∧ (e₂.run n).2 = (e₁.run n).2
  | 0, _, _, _, _ => ⟨rfl, rfl⟩
  | n + 1, e₁, e₂, h, hg => by
      obtain ⟨herr, hok⟩ := next_mirror m e₁ e₂ h hg
      cases hn : e₁.next with
      | error err =>
          have hn₂ := herr err hn
          have hr₁ : e₁.run (n + 1) = ([], some err) := by
            simp only [DigitalEstimator.run]
            rw [hn]
          have hr₂ : e₂.run (n + 1) = ([], some err) := by
            simp only [DigitalEstimator.run]
            rw [hn₂]
          rw [hr₁, hr₂]
          exact ⟨rfl, rfl⟩
      | ok p =>
          obtain ⟨v, e₁'⟩ := p
          obtain ⟨e₂', hn₂, h', hg'⟩ := hok v e₁' hn
          have ih := run_mirror m n e₁' e₂' h' hg'
          have hr₁ : e₁.run (n + 1) = (v :: (e₁'.run n).1, (e₁'.run n).2) := by
            simp only [DigitalEstimator.run]
            rw [hn]
          have hr₂ : e₂.run (n + 1) = (negVec v :: (e₂'.run n).1, (e₂'.run n).2) := by
            simp only [DigitalEstimator.run]
            rw [hn₂]
          rw [hr₁, hr₂]
          exact ⟨by rw [List.map_cons, ih.1], ih.2⟩

/-- C7 (amended): for an all-zero control-sample stream of any length,
with any valid configuration and zero initial forward state, the emitted
output samples are the exact negatives of those emitted for the all-ones
stream of the same length — the engine maps samples `0 ↦ -1`, `1 ↦ +1`
before the recursions — and both runs signal identically; the outputs
are not in general zero (`zero_stream_not_zero_output`). -/
theorem zero_stream_outputs_negate_ones_stream
    (c : FilterCoefficients) (K1 K2 size : Nat) (hK1 : 1 ≤ K1) (n : Nat) :
    ((mkEstimator c K1 K2 size (onesSource c.M)).run n).1 =
      (((mkEstimator c K1 K2 size (zeroSource c.M)).run n).1).map negVec ∧
    ((mkEstimator c K1 K2 size (onesSource c.M)).run n).2 =
      ((mkEstimator c K1 K2 size (zeroSource c.M)).run n).2 := by
  refine run_mirror c.M n _ _ ?_ ?_
  · exact { src₁ := rfl, src₂ := rfl, pos := rfl, size := rfl, iter := rfl,
            hK1 := rfl, hK2 := rfl, hN := rfl, hAf := rfl, hAb := rfl, hBf := rfl,
            hBb := rfl, hWT := rfl, buf₁ := rfl, buf₂ := rfl,
            hmf := (negVec_zeroVec c.N).symm, hest := rfl }
  · exact ⟨hK1, Nat.zero_le _, fun _ => rfl⟩

/-- Witness for C7's amended theorem: the one-dimensional configuration,
three pulls. -/
theorem zero_stream_outputs_negate_ones_stream_witness :
    (1 ≤ 1) ∧
      (((mkEstimator cexCoefficients 1 0 0 (onesSource cexCoefficients.M)).run 3).1 =
        (((mkEstimator cexCoefficients 1 0 0 (zeroSource cexCoefficients.M)).run 3).1).map
          negVec ∧
      ((mkEstimator cexCoefficients 1 0 0 (onesSource cexCoefficients.M)).run 3).2 =
        ((mkEstimator cexCoefficients 1 0 0 (zeroSource cexCoefficients.M)).run 3).2) :=
  ⟨by decide, zero_stream_outputs_negate_ones_stream cexCoefficients 1 0 0 (by decide) 3⟩

/-- Counterexample to C7 as stated: the one-dimensional zero-stream
estimator (`cexEstimatorC7`, zero initial state) emits `[-1]` as its
first sample, not the zero vector: with samples mapped `0 ↦ -1` the
backward input gain contributes `Bb·(-1) ≠ 0`. -/
theorem zero_stream_not_zero_output :
    cexFirstOutputC7 = [-1] ∧ cexFirstOutputC7 ≠ zeroVec 1 := by
  constructor
  · decide
  · decide

/-- C3: constructing an estimator with K1 < 1 or K2 < 0 fails with a
construction-time `configurationError` (the Python constructor raises
before building anything), so no estimator instance is produced. -/
theorem init_invalid_K1_K2_configuration_error
    (s : Nat → Option Vec) (c : Unit → FilterCoefficients) (eta2 : ℚ)
    (K1 K2 stop : Int) (h : K1 < 1 ∨ K2 < 0) :
    ∃ fault, DigitalEstimator.init s c eta2 K1 K2 stop =
      .error (.configurationError fault) := by
  unfold DigitalEstimator.init
  split_ifs with h1 h2 h3
  · exact ⟨_, rfl⟩
  · exact ⟨_, rfl⟩
  · exact ⟨_, rfl⟩
  · rcases h with h | h
    · exact absurd h h2
    · exact absurd h h3

/-- Witness for C3: K1 = 0 is rejected. -/
theorem init_invalid_K1_K2_configuration_error_witness :
    ((0 : Int) < 1 ∨ (0 : Int) < 0) ∧
      ∃ fault, DigitalEstimator.init zeroSourceOne (fun _ => fixtureCoefficients)
        1 0 0 0 = .error (.configurationError fault) :=
  ⟨Or.inl (by decide),
   init_invalid_K1_K2_configuration_error _ _ _ _ _ _ (Or.inl (by decide))⟩

/-- C9: a negative `stop_after_number_of_iterations` is rejected by the
first validation of the constructor: the error is produced for every
source (no sample is consumed) and for every coefficient thunk (the
coefficient computation is never invoked). -/
theorem init_negative_stop_rejected
    (s : Nat → Option Vec) (c : Unit → FilterCoefficients) (eta2 : ℚ)
    (K1 K2 stop : Int) (h : stop < 0) :
    DigitalEstimator.init s c eta2 K1 K2 stop =
      .error (.configurationError .nonNegativeIterations) := by
  unfold DigitalEstimator.init
  rw [if_pos h]

/-- Witness for C9: stop = −1 is rejected. -/
theorem init_negative_stop_rejected_witness :
    ((-1 : Int) < 0) ∧
      DigitalEstimator.init zeroSourceOne (fun _ => fixtureCoefficients)
        1 10 0 (-1) = .error (.configurationError .nonNegativeIterations) :=
  ⟨by decide, init_negative_stop_rejected _ _ _ _ _ _ (by decide)⟩

/-- C10: once the configured cap is exceeded (`size ≠ 0` and
`size < iteration`), every pull signals end-of-sequence immediately:
the cap guard is the first statement of `__next__`, evaluated before the
buffered-output check, so this holds for every adapter state, in
particular when resolved output samples are still buffered. -/
theorem next_cap_exceeded_stops (e : DigitalEstimator) (h1 : e.size ≠ 0)
    (h2 : e.size < e.iteration) : e.next = .error .streamExhausted := by
  unfold DigitalEstimator.next
  rw [if_pos ⟨h1, h2⟩]

/-- Witness for C10: the capped estimator with a buffered sample stops
anyway. -/
theorem next_cap_exceeded_stops_witness :
    (cexEstimatorC10.size ≠ 0) ∧ cexEstimatorC10.size < cexEstimatorC10.iteration ∧
      cexEstimatorC10.next = .error .streamExhausted :=
  ⟨by decide, by decide, next_cap_exceeded_stops _ (by decide) (by decide)⟩

end Cbadc
